import Mathlib

/-!
Verification development for the `fenrir` exchange repository.

Shallow embedding of:
  * the wire codec in `src/internal/net/messages.go`
    (`parseMessage`, `parseNewOrder`, `parseCancelOrder`, `Report.Serialize`),
  * the order book in `src/internal/engine/orderbook.go`
    (`PlaceOrder`, `handleLimit`, `handleMarket`, `Match`, `CancelOrder`),
  * the engine in `src/internal/engine/engine.go`
    (`Engine.PlaceOrder`, `DoTrade`).

Modelling conventions:
  * Go byte buffers are `List Nat` (each entry a byte value).
  * Go `uint64` quantities are `Nat`; the wrapping subtraction used by the
    bookkeeping code is modelled explicitly by `sub64`.
  * Go `float64` prices are modelled as `Int`: the code only ever compares
    prices with `<`, `>` and equality, so any linearly ordered type is a
    faithful abstraction of the non-NaN doubles the book stores.  In the
    codec, float fields are kept as their raw big-endian bit pattern.
  * A Go runtime panic from an out-of-range slice access is a distinguished
    result (`ParseResult.panicked`, or `none` for `Report.Serialize`).
  * `time.Now()` is an ambient clock; operations that stamp timestamps take
    the current time as an explicit `now : Nat` argument, and sequences of
    operations thread a strictly increasing clock.
-/

namespace Fenrir

/-! ## Wire codec (`src/internal/net/messages.go`) -/

namespace Net

/-- Big-endian `Uint16` of two bytes. -/
def be16 (b0 b1 : Nat) : Nat := b0 * 256 + b1

/-- Big-endian integer of a list of bytes (used for `Uint16/32/64` reads). -/
def beBytes (l : List Nat) : Nat := l.foldl (fun acc b => acc * 256 + b % 256) 0

/-- `NewOrderMessage` as produced by `parseNewOrder`.  Enum-typed fields
(`AssetType`, `OrderType`, `Side`) are kept as the raw decoded integers,
and the `float64` limit price as its raw bit pattern. -/
structure NewOrderMsg where
  assetType : Nat
  orderType : Nat
  ticker : List Nat
  limitPriceBits : Nat
  quantity : Nat
  side : Nat
  usernameLen : Nat
  username : List Nat
deriving DecidableEq, Repr

/-- `CancelOrderMessage` as produced by `parseCancelOrder`. -/
structure CancelOrderMsg where
  assetType : Nat
  orderUUID : List Nat
deriving DecidableEq, Repr

inductive Message where
  | newOrder (m : NewOrderMsg)
  | cancelOrder (m : CancelOrderMsg)
deriving DecidableEq, Repr

/-- The declared parse errors of `messages.go`:
`"message too short to contain header"`, `ErrInvalidMessageType`,
`ErrMessageTooShort`. -/
inductive NetError where
  | tooShortForHeader
  | invalidMessageType
  | messageTooShort
deriving DecidableEq, Repr

/-- Outcome of a parse.  `panicked` models a Go runtime panic caused by an
out-of-range index or slice expression. -/
inductive ParseResult where
  | ok (m : Message)
  | err (e : NetError)
  | panicked
deriving DecidableEq, Repr

/-- `NewOrderMessageHeaderLen = 2 + 2 + 4 + 8 + 8 + 1 + 1`. -/
def NewOrderMessageHeaderLen : Nat := 26

/-- `CancelOrderMessageHeaderLen = 2 + 16`. -/
def CancelOrderMessageHeaderLen : Nat := 18

/-- `parseNewOrder` of `messages.go`.  The Go code reads `msg[0:2]`,
`msg[2:4]`, `msg[4:8]`, `msg[8:16]`, `msg[16:24]`, `msg[24]` and `msg[25]`
before performing any length check, so a body shorter than the 26 fixed
bytes hits an out-of-range access: that is the first `panicked` branch.
Only after those reads does it compute
`expectedTotalLen := int(NewOrderMessageHeaderLen + m.UsernameLen)`.
`m.UsernameLen` is `uint8`, so both this sum and the later slice bound
`26+m.UsernameLen` are **uint8 arithmetic wrapping mod 256**.  For a
username-length byte ≥ 230 the wrapped bound is below 26: the
`len(msg) < expectedTotalLen` check passes vacuously and the slice
`msg[26 : 26+m.UsernameLen]` has its high index below its low index — a
runtime panic, the second `panicked` branch. -/
def parseNewOrder (msg : List Nat) : ParseResult :=
  if msg.length < NewOrderMessageHeaderLen then .panicked
  else
    let ul := msg.getD 25 0 % 256
    let expectedTotalLen := (NewOrderMessageHeaderLen + ul) % 256
    if msg.length < expectedTotalLen then .err .messageTooShort
    else if expectedTotalLen < 26 then .panicked
    else .ok (.newOrder {
      assetType := be16 (msg.getD 0 0) (msg.getD 1 0)
      orderType := be16 (msg.getD 2 0) (msg.getD 3 0)
      ticker := (msg.drop 4).take 4
      limitPriceBits := beBytes ((msg.drop 8).take 8)
      quantity := beBytes ((msg.drop 16).take 8)
      side := msg.getD 24 0
      usernameLen := ul
      username := (msg.drop 26).take (expectedTotalLen - 26) })

/-- `parseCancelOrder` of `messages.go`.  Note the Go body sets
`m.OrderUUID = string(msg[2:16])`, which is 14 bytes, although the header
constant declares `2 + 16` and the struct comment says 16 bytes. -/
def parseCancelOrder (msg : List Nat) : ParseResult :=
  if msg.length < CancelOrderMessageHeaderLen then .err .messageTooShort
  else .ok (.cancelOrder {
    assetType := be16 (msg.getD 0 0) (msg.getD 1 0)
    orderUUID := (msg.drop 2).take 14 })

/-- `parseMessage` of `messages.go`: check the 2-byte header, decode the
big-endian type discriminant, dispatch.  `NewOrder = 1`, `CancelOrder = 2`;
every other discriminant (including `Heartbeat = 0`) falls through to
`ErrInvalidMessageType`. -/
def parseMessage (msg : List Nat) : ParseResult :=
  if msg.length < 2 then .err .tooShortForHeader
  else
    let typeOf := be16 (msg.getD 0 0) (msg.getD 1 0)
    if typeOf = 1 then parseNewOrder (msg.drop 2)
    else if typeOf = 2 then parseCancelOrder (msg.drop 2)
    else .err .invalidMessageType

/-- The `Report` struct of `messages.go`.  String fields are byte lists;
`Price` is kept as its raw bit pattern. -/
structure Report where
  messageType : Nat
  assetType : Nat
  side : Nat
  timestamp : Nat
  quantity : Nat
  priceBits : Nat
  counterpartyLen : Nat
  errStrLen : Nat
  ticker : List Nat
  uuid : List Nat
  err : List Nat
  counterparty : List Nat
deriving DecidableEq, Repr

/-- `reportFixedHeaderLen = 1 + 1 + 1 + 8 + 8 + 8 + 2 + 4 + 4 + 16`. -/
def reportFixedHeaderLen : Nat := 53

/-- Big-endian encoding of `v` into `n` bytes (`binary.BigEndian.PutUintN`). -/
def beEncode (n v : Nat) : List Nat :=
  (List.range n).map (fun i => v / 256 ^ (n - 1 - i) % 256)

/-- Go `copy(buf[off:], src)`: overwrite bytes of `buf` starting at `off`
with as many bytes of `src` as fit. -/
def copyAt (buf : List Nat) (off : Nat) (src : List Nat) : List Nat :=
  buf.take off ++ src.take (buf.length - off) ++
    buf.drop (off + min src.length (buf.length - off))

/-- `Report.Serialize` of `messages.go`.  The Go code writes the fixed
header, then evaluates `r.Ticker[:4]` and `r.UUID[:16]`: slicing a Go
string beyond its length panics, so a ticker shorter than 4 bytes or a
uuid shorter than 16 bytes is a runtime panic (`none`), despite the
comment above those lines claiming `copy()` avoids the panic.  A second
panic source is `buf[offset:]` when `offset = 53 + ErrStrLen` exceeds the
buffer length while `CounterpartyLen > 0`. -/
def serializeReport (r : Report) : Option (List Nat) :=
  let totalSize := reportFixedHeaderLen + r.err.length + r.counterparty.length
  if r.ticker.length < 4 then none
  else if r.uuid.length < 16 then none
  else if r.counterpartyLen > 0 ∧ totalSize < reportFixedHeaderLen + r.errStrLen
    then none
  else
    let header := [r.messageType % 256, r.assetType % 256, r.side % 256] ++
      beEncode 8 r.timestamp ++ beEncode 8 r.quantity ++ beEncode 8 r.priceBits ++
      beEncode 2 r.counterpartyLen ++ beEncode 4 r.errStrLen ++
      r.ticker.take 4 ++ r.uuid.take 16
    let buf := header ++ List.replicate (r.err.length + r.counterparty.length) 0
    let buf := if r.errStrLen > 0 then copyAt buf reportFixedHeaderLen r.err else buf
    let buf := if r.counterpartyLen > 0 then
        copyAt buf (reportFixedHeaderLen + r.errStrLen) r.counterparty
      else buf
    some buf

end Net

/-! ## Order book (`src/internal/engine/orderbook.go`) -/

namespace Engine

inductive Side where
  | buy
  | sell
deriving DecidableEq, Repr

inductive OrderType where
  | limit
  | market
deriving DecidableEq, Repr

/-- The `Order` struct of the engine package.  `quantity` is the remaining
quantity, `totalQuantity` the total volume requested. -/
structure Order where
  uuid : String
  assetType : Nat
  orderType : OrderType
  ticker : String
  side : Side
  limitPrice : Int
  quantity : Nat
  totalQuantity : Nat
  timestamp : Nat
  exchTimestamp : Nat
  owner : String
deriving DecidableEq, Repr

/-- `OrderAsc`: time priority, tie-broken by UUID, as the comparator of the
per-level order btree. -/
def OrderAsc (a b : Order) : Bool :=
  if a.exchTimestamp < b.exchTimestamp then true
  else if b.exchTimestamp < a.exchTimestamp then false
  else decide (a.uuid < b.uuid)

/-- A price level: the level price and the orders resting on it, sorted by
`OrderAsc` (the btree's iteration order). -/
structure PriceLevel where
  price : Int
  orders : List Order
deriving DecidableEq, Repr

/-- Bid-tree comparator: `a.PriceLevel > b.PriceLevel` (greatest first). -/
def bidLess (a b : Int) : Bool := decide (b < a)

/-- Ask-tree comparator: `a.PriceLevel < b.PriceLevel` (least first). -/
def askLess (a b : Int) : Bool := decide (a < b)

/-- `btree.Set` on the per-level order tree: insert in sorted position,
replacing an item that is equal under the comparator. -/
def setOrder (x : Order) : List Order → List Order
  | [] => [x]
  | y :: ys =>
    if OrderAsc x y then x :: y :: ys
    else if OrderAsc y x then y :: setOrder x ys
    else x :: ys

/-- `btree.Set` on a level tree: insert the level in comparator order,
replacing a level with an equal price. -/
def setLevel (less : Int → Int → Bool) (x : PriceLevel) :
    List PriceLevel → List PriceLevel
  | [] => [x]
  | y :: ys =>
    if less x.price y.price then x :: y :: ys
    else if less y.price x.price then y :: setLevel less x ys
    else x :: ys

/-- `btree.GetMut` on a level tree: the level whose price is equal to `p`
under the comparator. -/
def getLevel (less : Int → Int → Bool) (p : Int) (ls : List PriceLevel) :
    Option PriceLevel :=
  ls.find? fun y => !less p y.price && !less y.price p

/-- One `engine.DoTrade(taker, maker, price, quantity)` invocation made by
the book, with the argument values observable at call time (the Go code
passes pointers to orders whose quantities were just decremented). -/
structure TradeCall where
  taker : Order
  maker : Order
  price : Int
  qty : Nat
deriving DecidableEq, Repr

/-- Result of matching the two best levels against each other: the
remaining ask-level orders, the remaining bid-level orders, and the
`DoTrade` calls in order. -/
structure LevelMatch where
  askOrders : List Order
  bidOrders : List Order
  trades : List TradeCall
deriving DecidableEq, Repr

/-- The inner loop of `Match()` on one pair of best levels, with an
explicit iteration budget.  Each iteration consumes the earliest order of
each level, decrements both by the matched quantity, decides taker/maker
by `ExchTimestamp.After` and removes fully filled orders; every iteration
removes at least one order, so `askOrders.length + bidOrders.length`
iterations always reach the loop's exit (one side exhausted), which
`matchLevel` supplies below. -/
def matchLevelF : Nat → List Order → List Order → Int → Int → LevelMatch
  | 0, askOrders, bidOrders, _, _ =>
    { askOrders := askOrders, bidOrders := bidOrders, trades := [] }
  | _ + 1, [], bidOrders, _, _ =>
    { askOrders := [], bidOrders := bidOrders, trades := [] }
  | _ + 1, a :: as', [], _, _ =>
    { askOrders := a :: as', bidOrders := [], trades := [] }
  | fuel + 1, a :: as', b :: bs', askPrice, bidPrice =>
    let m := min a.quantity b.quantity
    let a' : Order := { a with quantity := a.quantity - m }
    let b' : Order := { b with quantity := b.quantity - m }
    let tc : TradeCall :=
      if b.exchTimestamp < a.exchTimestamp then
        { taker := a', maker := b', price := bidPrice, qty := m }
      else
        { taker := b', maker := a', price := askPrice, qty := m }
    let askRest := if a'.quantity = 0 then as' else a' :: as'
    let bidRest := if b'.quantity = 0 then bs' else b' :: bs'
    let r := matchLevelF fuel askRest bidRest askPrice bidPrice
    { askOrders := r.askOrders, bidOrders := r.bidOrders, trades := tc :: r.trades }

/-- The inner loop of `Match()` run to completion. -/
def matchLevel (askOrders bidOrders : List Order) (askPrice bidPrice : Int) :
    LevelMatch :=
  matchLevelF (askOrders.length + bidOrders.length) askOrders bidOrders askPrice bidPrice

/-- Result of `Match()`: the two level trees and the `DoTrade` calls. -/
structure MatchResult where
  bids : List PriceLevel
  asks : List PriceLevel
  trades : List TradeCall
deriving DecidableEq, Repr

/-- The outer loop of `Match()`: while both sides are non-empty and the
best levels cross (`best_bid ≥ best_ask`), match the two best levels and
delete levels whose order queue emptied.  Every iteration empties and
deletes at least one level, so `bids.length + asks.length` iterations
always reach the exit condition; `matchBook` supplies that budget. -/
def matchBookF : Nat → List PriceLevel → List PriceLevel → MatchResult
  | 0, bids, asks => { bids := bids, asks := asks, trades := [] }
  | _ + 1, [], asks => { bids := [], asks := asks, trades := [] }
  | _ + 1, b :: bt, [] => { bids := b :: bt, asks := [], trades := [] }
  | fuel + 1, bb :: bt, ba :: at' =>
    if bb.price < ba.price then
      { bids := bb :: bt, asks := ba :: at', trades := [] }
    else
      let r := matchLevel ba.orders bb.orders ba.price bb.price
      let asks' := if r.askOrders = [] then at' else { ba with orders := r.askOrders } :: at'
      let bids' := if r.bidOrders = [] then bt else { bb with orders := r.bidOrders } :: bt
      let rest := matchBookF fuel bids' asks'
      { bids := rest.bids, asks := rest.asks, trades := r.trades ++ rest.trades }

/-- `Match()` of `orderbook.go` run to completion.  (The engine back-pointer
is modelled by returning the `DoTrade` calls; reporter errors surface at the
engine layer, `doTrade` below.) -/
def matchBook (bids asks : List PriceLevel) : MatchResult :=
  matchBookF (bids.length + asks.length) bids asks

/-- Wrapping `uint64` subtraction, `a - b` in Go. -/
def sub64 (a b : Nat) : Nat :=
  (a % 2 ^ 64 + (2 ^ 64 - b % 2 ^ 64)) % 2 ^ 64

inductive BookError where
  | notEnoughLiquidity
  | bookNotFound
deriving DecidableEq, Repr

/-- The `OrderBook` struct: the two level trees as comparator-sorted lists
plus the four bookkeeping counters. -/
structure OrderBook where
  bids : List PriceLevel
  asks : List PriceLevel
  nBuyOrders : Nat
  nSellOrders : Nat
  buyQuantity : Nat
  sellQuantity : Nat
deriving DecidableEq, Repr

def NewOrderBook : OrderBook :=
  { bids := [], asks := [], nBuyOrders := 0, nSellOrders := 0,
    buyQuantity := 0, sellQuantity := 0 }

/-- Result of one `DeleteAscend` walk over a level in `handleMarket`: the
market order with its remaining quantity, the level's surviving orders, the
number of fully filled resting orders deleted (`liftedOrders` increments),
and the `DoTrade` calls. -/
structure LevelSweep where
  ord : Order
  orders : List Order
  lifted : Nat
  trades : List TradeCall
deriving DecidableEq, Repr

/-- The `DeleteAscend` callback loop of `handleMarket` on one level: walk
resting orders in FIFO order, stop once the market order is filled, match
away `min` quantities, delete fully filled resting orders.  When a resting
order survives with positive quantity the market order's remaining quantity
is zero (`min` zeroes one side), so the walk stops there as the Go callback
does on its next visit. -/
def sweepLevel (ord : Order) (orders : List Order) (price : Int) : LevelSweep :=
  match orders with
  | [] => { ord := ord, orders := [], lifted := 0, trades := [] }
  | r :: rs =>
    if ord.quantity = 0 then
      { ord := ord, orders := r :: rs, lifted := 0, trades := [] }
    else
      let m := min ord.quantity r.quantity
      let ord' : Order := { ord with quantity := ord.quantity - m }
      let r' : Order := { r with quantity := r.quantity - m }
      let tc : TradeCall := { taker := ord', maker := r', price := price, qty := m }
      if r'.quantity = 0 then
        let rest := sweepLevel ord' rs price
        { ord := rest.ord, orders := rest.orders,
          lifted := rest.lifted + 1, trades := tc :: rest.trades }
      else
        { ord := ord', orders := r' :: rs, lifted := 0, trades := [tc] }

/-- Result of the whole sweep loop of `handleMarket`. -/
structure SweepResult where
  ord : Order
  levels : List PriceLevel
  lifted : Nat
  trades : List TradeCall
  err : Option BookError
deriving DecidableEq, Repr

/-- The sweep loop of `handleMarket`: while the market order has remaining
quantity, take the best opposite level; if none is left return
`NotEnoughLiquidity` (leaving the mutations made so far in place),
otherwise walk the level and delete it if it emptied. -/
def sweep (ord : Order) (levels : List PriceLevel) : SweepResult :=
  match levels with
  | [] =>
    if ord.quantity = 0 then
      { ord := ord, levels := [], lifted := 0, trades := [], err := none }
    else
      { ord := ord, levels := [], lifted := 0, trades := [],
        err := some .notEnoughLiquidity }
  | l :: ls =>
    if ord.quantity = 0 then
      { ord := ord, levels := l :: ls, lifted := 0, trades := [], err := none }
    else
      let r := sweepLevel ord l.orders l.price
      if r.orders = [] then
        let rest := sweep r.ord ls
        { ord := rest.ord, levels := rest.levels, lifted := r.lifted + rest.lifted,
          trades := r.trades ++ rest.trades, err := rest.err }
      else
        { ord := r.ord, levels := { l with orders := r.orders } :: ls,
          lifted := r.lifted, trades := r.trades, err := none }

/-- Outcome of a book operation: the new book, the `DoTrade` calls made,
and the returned error. -/
structure BookResult where
  book : OrderBook
  trades : List TradeCall
  err : Option BookError
deriving DecidableEq, Repr

/-- `handleMarket` of `orderbook.go`: the liquidity sanity check against
the opposite side's counter, the sweep, then the counter bookkeeping
(skipped when the sweep errors, as the Go code returns early). -/
def handleMarket (book : OrderBook) (order : Order) : BookResult :=
  if (order.side = .buy ∧ book.sellQuantity < order.totalQuantity) ∨
     (order.side = .sell ∧ book.buyQuantity < order.totalQuantity) then
    { book := book, trades := [], err := some .notEnoughLiquidity }
  else
    match order.side with
    | .buy =>
      let r := sweep order book.asks
      match r.err with
      | some e => { book := { book with asks := r.levels }, trades := r.trades, err := some e }
      | none =>
        let book' : OrderBook :=
          { book with
              asks := r.levels
              sellQuantity := sub64 book.sellQuantity order.totalQuantity
              nSellOrders := sub64 book.nSellOrders r.lifted }
        { book := book', trades := r.trades, err := none }
    | .sell =>
      let r := sweep order book.bids
      match r.err with
      | some e => { book := { book with bids := r.levels }, trades := r.trades, err := some e }
      | none =>
        let book' : OrderBook :=
          { book with
              bids := r.levels
              buyQuantity := sub64 book.buyQuantity order.totalQuantity
              nBuyOrders := sub64 book.nBuyOrders r.lifted }
        { book := book', trades := r.trades, err := none }

/-- `handleLimit` of `orderbook.go`: rest the order on its own side's level
(created if absent), then run `Match()`.  Note the function does not touch
any of the four bookkeeping counters. -/
def handleLimit (book : OrderBook) (order : Order) : BookResult :=
  match order.side with
  | .buy =>
    let lvl := (getLevel bidLess order.limitPrice book.bids).getD
      { price := order.limitPrice, orders := [] }
    let lvl' := { lvl with orders := setOrder order lvl.orders }
    let r := matchBook (setLevel bidLess lvl' book.bids) book.asks
    { book := { book with bids := r.bids, asks := r.asks }, trades := r.trades, err := none }
  | .sell =>
    let lvl := (getLevel askLess order.limitPrice book.asks).getD
      { price := order.limitPrice, orders := [] }
    let lvl' := { lvl with orders := setOrder order lvl.orders }
    let r := matchBook book.bids (setLevel askLess lvl' book.asks)
    { book := { book with bids := r.bids, asks := r.asks }, trades := r.trades, err := none }

/-- `OrderBook.PlaceOrder`: stamp the exchange timestamp (`time.Now()`,
passed in as `now`) and dispatch on the order type. -/
def placeOrder (now : Nat) (book : OrderBook) (order : Order) : BookResult :=
  let order := { order with exchTimestamp := now }
  match order.orderType with
  | .limit => handleLimit book order
  | .market => handleMarket book order

/-- `OrderBook.CancelOrder` of `orderbook.go`: the body is
`// FIXME: implement this` followed by `return nil` — it touches nothing
and reports no error. -/
def cancelOrder (book : OrderBook) (_uuid : String) : OrderBook × Option BookError :=
  (book, none)

/-- A public order-book operation. -/
inductive BookOp where
  | place (order : Order)
  | cancel (uuid : String)
deriving DecidableEq, Repr

def applyOp (now : Nat) (book : OrderBook) : BookOp → OrderBook
  | .place o => (placeOrder now book o).book
  | .cancel u => (cancelOrder book u).1

/-- Run a sequence of public operations, threading the (strictly
increasing) clock that `time.Now()` reads. -/
def runOpsFrom (now : Nat) (book : OrderBook) : List BookOp → OrderBook
  | [] => book
  | op :: ops => runOpsFrom (now + 1) (applyOp now book op) ops

/-- Run a sequence of public operations on a fresh book. -/
def runOps (ops : List BookOp) : OrderBook :=
  runOpsFrom 0 NewOrderBook ops

/-! ## Engine (`src/internal/engine/engine.go`) -/

/-- The `Trade` struct (`src/internal/common/trade.go`): the two parties,
the match timestamp, quantity and price. -/
structure Trade where
  party : Order
  counterParty : Order
  timestamp : Nat
  matchQty : Nat
  price : Int
deriving DecidableEq, Repr

/-- Reporter errors are opaque to the engine; model them as strings. -/
abbrev ReporterError := String

/-- A `Reporter`: `Report(owner string, trade Trade) error`. -/
abbrev Reporter := String → Trade → Option ReporterError

/-- The `Trade` value `DoTrade` constructs: taker as `Party`, maker as
`CounterParty`, the current time, matched quantity and price. -/
def tradeOf (taker maker : Order) (now : Nat) (price : Int) (quantity : Nat) :
    Trade :=
  { party := taker, counterParty := maker, timestamp := now,
    matchQty := quantity, price := price }

/-- `Engine.DoTrade` of `engine.go` with the reporter as an explicit
argument and the in-memory `engine.Trades` log passed in and returned.
The result records, in order: the owners the reporter was invoked for,
the new trades log, and the returned error.  The Go code returns as soon
as a `Report` call yields a non-nil error. -/
def doTrade (reporter : Reporter) (log : List Trade) (taker maker : Order)
    (now : Nat) (price : Int) (quantity : Nat) :
    List String × List Trade × Option ReporterError :=
  let trade := tradeOf taker maker now price quantity
  match reporter taker.owner trade with
  | some e => ([taker.owner], log, some e)
  | none =>
    match reporter maker.owner trade with
    | some e => ([taker.owner, maker.owner], log, some e)
    | none => ([taker.owner, maker.owner], log ++ [trade], none)

/-- The engine's book map, `Books map[AssetType]OrderBook`, as an
association list. -/
abbrev Books := List (Nat × OrderBook)

def lookupBook (books : Books) (asset : Nat) : Option OrderBook :=
  (books.find? fun p => p.1 = asset).map (·.2)

/-- Store a book value under a key that is already present. -/
def storeBook (books : Books) (asset : Nat) (b : OrderBook) : Books :=
  books.map fun p => if p.1 = asset then (asset, b) else p

/-- `Engine.PlaceOrder` of `engine.go`.  The Go code reads the `OrderBook`
out of the map **by value** and calls `PlaceOrder` on that local copy,
never writing it back: the `Bids`/`Asks` btrees are pointers shared with
the map's value, so the level-tree mutations are visible in the map, while
the four counter fields are plain integers mutated only on the local copy.
The map's stored book therefore ends with the operation's resulting trees
and its **old** counters. -/
def enginePlaceOrder (now : Nat) (books : Books) (asset : Nat) (order : Order) :
    Books × List TradeCall × Option BookError :=
  match lookupBook books asset with
  | none => (books, [], some .bookNotFound)
  | some book =>
    let r := placeOrder now book order
    let stored : OrderBook :=
      { bids := r.book.bids, asks := r.book.asks,
        nBuyOrders := book.nBuyOrders, nSellOrders := book.nSellOrders,
        buyQuantity := book.buyQuantity, sellQuantity := book.sellQuantity }
    (storeBook books asset stored, r.trades, r.err)

/-! ## Spec-side measuring functions and invariants -/

/-- Sum of `remaining_qty` over all orders resting on a side. -/
def levelsQuantity (ls : List PriceLevel) : Nat :=
  (ls.map fun l => (l.orders.map (·.quantity)).sum).sum

/-- Number of orders resting on a side. -/
def levelsOrderCount (ls : List PriceLevel) : Nat :=
  (ls.map fun l => l.orders.length).sum

/-- The price keys of a level tree in iteration order. -/
def PricesOf (ls : List PriceLevel) : List Int := ls.map (·.price)

/-- The levels of a side are strictly sorted by the side's comparator. -/
def SortedLevels (less : Int → Int → Bool) (ls : List PriceLevel) : Prop :=
  (PricesOf ls).Pairwise fun a b => less a b = true

/-- Both level trees are sorted by their comparators: bids descending,
asks ascending. -/
def BookSorted (book : OrderBook) : Prop :=
  SortedLevels bidLess book.bids ∧ SortedLevels askLess book.asks

/-- Whenever both sides are non-empty, the best bid is strictly below the
best ask. -/
def BookUncrossed (book : OrderBook) : Prop :=
  ∀ bb ba, book.bids.head? = some bb → book.asks.head? = some ba →
    bb.price < ba.price

def BookInv (book : OrderBook) : Prop := BookSorted book ∧ BookUncrossed book

/-- Every order resting on a level of `ls` carries the level's price as its
limit price and the given side (the book invariant `handleLimit`
establishes: orders rest on their own side at their own price). -/
def LevelsWF (side : Side) (ls : List PriceLevel) : Prop :=
  ∀ lvl ∈ ls, ∀ o ∈ lvl.orders, o.limitPrice = lvl.price ∧ o.side = side

/-! ## Concrete fixtures for witnesses and counterexamples -/

/-- A template limit buy order. -/
def demoBuy : Order :=
  { uuid := "b1", assetType := 0, orderType := .limit, ticker := "TICK",
    side := .buy, limitPrice := 99, quantity := 5, totalQuantity := 5,
    timestamp := 0, exchTimestamp := 0, owner := "alice" }

/-- A template limit sell order. -/
def demoSell : Order :=
  { uuid := "s1", assetType := 0, orderType := .limit, ticker := "TICK",
    side := .sell, limitPrice := 100, quantity := 50, totalQuantity := 50,
    timestamp := 0, exchTimestamp := 0, owner := "bob" }

/-- A market buy order for one share. -/
def demoMarketBuy : Order :=
  { demoBuy with orderType := .market, quantity := 1, totalQuantity := 1 }

/-- A market buy order for zero shares (passes the liquidity check on an
empty book). -/
def demoMarketZero : Order :=
  { demoBuy with orderType := .market, quantity := 0, totalQuantity := 0 }

/-- A reporter whose every `Report` call fails. -/
def failingReporter : Reporter := fun _ _ => some "socket closed"

/-- A bid resting at level 100, stamped later (`exchTimestamp = 1`) than
the ask it will cross. -/
def demoRestBid : Order :=
  { demoBuy with
      limitPrice := 100
      exchTimestamp := 1
      quantity := 30
      totalQuantity := 30 }

/-- An ask resting at level 99, stamped earlier (`exchTimestamp = 0`). -/
def demoRestAsk : Order := { demoSell with limitPrice := 99, exchTimestamp := 0 }

/-- A one-level crossed bid side. -/
def demoCrossedBids : List PriceLevel := [{ price := 100, orders := [demoRestBid] }]

/-- A one-level ask side crossed by `demoCrossedBids`. -/
def demoCrossedAsks : List PriceLevel := [{ price := 99, orders := [demoRestAsk] }]

/-- The single `DoTrade` call `Match()` makes on the crossed demo book:
the later bid is taker, the earlier ask is maker, at the ask level's
price. -/
def demoCrossTrade : TradeCall :=
  { taker := { demoRestBid with quantity := 0 }
    maker := { demoRestAsk with quantity := 20 }
    price := 99, qty := 30 }

/-- A short operation sequence: a resting buy at 99, then a resting sell
at 100. -/
def demoOps : List BookOp := [.place demoBuy, .place demoSell]

/-- The bid level `runOps demoOps` leaves behind. -/
def demoBidLevel : PriceLevel :=
  { price := 99, orders := [{ demoBuy with exchTimestamp := 0 }] }

/-- The ask level `runOps demoOps` leaves behind. -/
def demoAskLevel : PriceLevel :=
  { price := 100, orders := [{ demoSell with exchTimestamp := 1 }] }

end Engine

namespace Net

/-- A `CancelOrder` body: asset type `0x0001` followed by the 16 uuid bytes
`65 .. 80`. -/
def demoCancelBody : List Nat :=
  [0, 1, 65, 66, 67, 68, 69, 70, 71, 72, 73, 74, 75, 76, 77, 78, 79, 80]

/-- A report whose ticker is only 2 bytes long (uuid full-length). -/
def demoShortTickerReport : Report :=
  { messageType := 0, assetType := 0, side := 0, timestamp := 0, quantity := 0,
    priceBits := 0, counterpartyLen := 0, errStrLen := 0,
    ticker := [84, 75],
    uuid := [48, 49, 50, 51, 52, 53, 54, 55, 56, 57, 58, 59, 60, 61, 62, 63],
    err := [], counterparty := [] }

/-- A report whose uuid is only 3 bytes long (ticker full-length). -/
def demoShortUuidReport : Report :=
  { demoShortTickerReport with ticker := [84, 73, 67, 75], uuid := [1, 2, 3] }

end Net

/-! ## Theorems -/

namespace Engine

/-- **C3.** A market order whose total quantity exceeds the opposite side's
recorded liquidity (`sellQuantity` for a buy, `buyQuantity` for a sell) is
rejected with `NotEnoughLiquidity` by `handleMarket`, and the book is
returned unchanged with no trades emitted. -/
theorem handleMarket_insufficient_liquidity (book : OrderBook) (order : Order)
    (h : (order.side = .buy ∧ book.sellQuantity < order.totalQuantity) ∨
         (order.side = .sell ∧ book.buyQuantity < order.totalQuantity)) :
    handleMarket book order =
      { book := book, trades := [], err := some .notEnoughLiquidity } := by
  unfold handleMarket
  rw [if_pos h]

/-- Witness for C3: a market buy for one share against an empty book. -/
theorem handleMarket_insufficient_liquidity_witness :
    handleMarket NewOrderBook demoMarketBuy =
      { book := NewOrderBook, trades := [], err := some .notEnoughLiquidity } :=
  handleMarket_insufficient_liquidity NewOrderBook demoMarketBuy
    (Or.inl ⟨rfl, by decide⟩)

/-- **C4** (code bug).  `OrderBook.CancelOrder` is a `FIXME` stub: for every
book and every order id — resting, unknown or already cancelled — it
returns `nil` and leaves the book untouched, never producing the
`UnknownOrder` error and never removing an order or adjusting counters. -/
theorem cancelOrder_is_a_stub (book : OrderBook) (uuid : String) :
    cancelOrder book uuid = (book, none) := rfl

/-- **C1** (code bug).  Placing a single limit buy of quantity 5 on a fresh
book leaves `buyQuantity = 0` and `nBuyOrders = 0` even though the bid side
then holds one resting order of remaining quantity 5: `handleLimit` never
updates the bookkeeping counters, so the claimed counter invariant fails
after the very first operation. -/
theorem counters_not_maintained_by_limit_placement :
    (placeOrder 0 NewOrderBook demoBuy).book.buyQuantity = 0 ∧
    (placeOrder 0 NewOrderBook demoBuy).book.nBuyOrders = 0 ∧
    levelsQuantity (placeOrder 0 NewOrderBook demoBuy).book.bids = 5 ∧
    levelsOrderCount (placeOrder 0 NewOrderBook demoBuy).book.bids = 1 := by
  decide

/-- Storing under a key present in the book map is observed by a
subsequent lookup of that key. -/
theorem lookupBook_storeBook (books : Books) (asset : Nat) (b b0 : OrderBook)
    (h : lookupBook books asset = some b0) :
    lookupBook (storeBook books asset b) asset = some b := by
  induction books with
  | nil => simp [lookupBook] at h
  | cons p ps ih =>
    by_cases hp : p.1 = asset
    · simp [lookupBook, storeBook, List.find?, hp]
    · simp only [lookupBook, storeBook, List.map_cons, if_neg hp] at *
      rw [List.find?] at *
      rw [decide_eq_false hp] at *
      exact ih h

/-- **C10.**  `Engine.PlaceOrder` reads the `OrderBook` out of `Books` by
value and runs the order on that copy: after a market order, the book
stored in the map has the operation's resulting `Bids`/`Asks` trees (the
trees are shared pointers) but its counter fields are exactly the ones it
had before the call — the bookkeeping subtractions of `handleMarket` are
applied only to the discarded local copy. -/
theorem enginePlaceOrder_market_counter_frame (now : Nat) (books : Books)
    (asset : Nat) (order : Order) (book : OrderBook)
    (hb : lookupBook books asset = some book)
    (_hm : order.orderType = .market) :
    lookupBook (enginePlaceOrder now books asset order).1 asset = some
      { bids := (placeOrder now book order).book.bids
        asks := (placeOrder now book order).book.asks
        nBuyOrders := book.nBuyOrders
        nSellOrders := book.nSellOrders
        buyQuantity := book.buyQuantity
        sellQuantity := book.sellQuantity } := by
  simp only [enginePlaceOrder, hb]
  exact lookupBook_storeBook books asset _ book hb

/-- Witness for C10: a one-book engine and a zero-quantity market buy. -/
theorem enginePlaceOrder_market_counter_frame_witness :
    lookupBook (enginePlaceOrder 0 [(0, NewOrderBook)] 0 demoMarketZero).1 0 = some
      { bids := (placeOrder 0 NewOrderBook demoMarketZero).book.bids
        asks := (placeOrder 0 NewOrderBook demoMarketZero).book.asks
        nBuyOrders := NewOrderBook.nBuyOrders
        nSellOrders := NewOrderBook.nSellOrders
        buyQuantity := NewOrderBook.buyQuantity
        sellQuantity := NewOrderBook.sellQuantity } :=
  enginePlaceOrder_market_counter_frame 0 [(0, NewOrderBook)] 0 demoMarketZero
    NewOrderBook rfl rfl

/-- **C6, counterexample.**  When the first reporter call fails, `DoTrade`
returns at once: the reporter is invoked only for the taker's owner
(`"alice"`), the maker's owner is never reported to, and the trade is not
appended to the trades log — contradicting the claim that both the second
report and the log append still happen. -/
theorem doTrade_skips_maker_report_on_error :
    doTrade failingReporter [] demoBuy demoSell 7 100 30 =
      (["alice"], [], some "socket closed") := rfl

/-- **C6, amended.**  `DoTrade` reports to the taker's owner first; on a
non-nil error it returns that error immediately, without reporting to the
maker's owner and without appending the trade.  Otherwise it reports to the
maker's owner; on error it returns that error without appending.  Only when
both reports succeed is the trade appended to the log, and `nil` returned. -/
theorem doTrade_reporting_semantics (reporter : Reporter) (log : List Trade)
    (taker maker : Order) (now : Nat) (price : Int) (qty : Nat) :
    (∀ e, reporter taker.owner (tradeOf taker maker now price qty) = some e →
      doTrade reporter log taker maker now price qty = ([taker.owner], log, some e)) ∧
    (∀ e, reporter taker.owner (tradeOf taker maker now price qty) = none →
      reporter maker.owner (tradeOf taker maker now price qty) = some e →
      doTrade reporter log taker maker now price qty =
        ([taker.owner, maker.owner], log, some e)) ∧
    (reporter taker.owner (tradeOf taker maker now price qty) = none →
      reporter maker.owner (tradeOf taker maker now price qty) = none →
      doTrade reporter log taker maker now price qty =
        ([taker.owner, maker.owner], log ++ [tradeOf taker maker now price qty], none)) := by
  refine ⟨fun e he => ?_, fun e h1 h2 => ?_, fun h1 h2 => ?_⟩
  · simp only [doTrade]; rw [he]
  · simp only [doTrade]; rw [h1, h2]
  · simp only [doTrade]; rw [h1, h2]

/-- **C7** (code bug).  On an 18-byte `CancelOrder` body (asset type
`0x0001`, uuid bytes `65 .. 80`), `parseCancelOrder` decodes the asset type
correctly but takes `msg[2:16]` for the uuid: only the first **14** uuid
bytes (`65 .. 78`); bytes `79` and `80` are dropped, although the struct
declares a 16-byte uuid and `CancelOrderMessageHeaderLen = 2 + 16`. -/
theorem parseCancelOrder_truncates_uuid :
    Net.parseCancelOrder Net.demoCancelBody =
      .ok (.cancelOrder
        { assetType := 1
          orderUUID := [65, 66, 67, 68, 69, 70, 71, 72, 73, 74, 75, 76, 77, 78] }) := by
  decide

/-- **C5, counterexample.**  The buffer `[0, 1, 0]` declares a `NewOrder`
message whose body is a single byte: `parseNewOrder` reads the fixed fields
before any length check, so the parse is an out-of-range slice access (a Go
runtime panic), not a returned error — the claim that `parse` never crashes
is false. -/
theorem parse_panics_on_short_new_order_body :
    Net.parseMessage [0, 1, 0] = .panicked := by decide

/-- The inner `Match()` loop preserves any order property stable under
quantity updates on both level queues, and every `DoTrade` call it makes
either takes an ask-queue order as taker against a bid-queue maker at the
bid level's price, or a bid-queue order as taker against an ask-queue
maker at the ask level's price — in both cases the maker's exchange
timestamp is not later than the taker's. -/
theorem matchLevelF_pres (P Q : Order → Prop)
    (hP : ∀ (o : Order) (n : Nat), P o → P { o with quantity := n })
    (hQ : ∀ (o : Order) (n : Nat), Q o → Q { o with quantity := n })
    (fuel : Nat) (a b : List Order) (ap bp : Int)
    (ha : ∀ o ∈ a, P o) (hb : ∀ o ∈ b, Q o) :
    (∀ o ∈ (matchLevelF fuel a b ap bp).askOrders, P o) ∧
    (∀ o ∈ (matchLevelF fuel a b ap bp).bidOrders, Q o) ∧
    (∀ tc ∈ (matchLevelF fuel a b ap bp).trades,
      (P tc.taker ∧ Q tc.maker ∧ tc.price = bp ∧
        tc.maker.exchTimestamp ≤ tc.taker.exchTimestamp) ∨
      (Q tc.taker ∧ P tc.maker ∧ tc.price = ap ∧
        tc.maker.exchTimestamp ≤ tc.taker.exchTimestamp)) := by
  induction fuel generalizing a b with
  | zero => exact ⟨ha, hb, by simp [matchLevelF]⟩
  | succ n ih =>
    match a, b with
    | [], b =>
      exact ⟨by simp [matchLevelF], by simpa [matchLevelF] using hb,
        by simp [matchLevelF]⟩
    | a₀ :: as', [] =>
      exact ⟨by simpa [matchLevelF] using ha, by simp [matchLevelF],
        by simp [matchLevelF]⟩
    | a₀ :: as', b₀ :: bs' =>
      have hP0 : P a₀ := ha a₀ (by simp)
      have hQ0 : Q b₀ := hb b₀ (by simp)
      have hPs : ∀ o ∈ as', P o := fun o ho => ha o (by simp [ho])
      have hQs : ∀ o ∈ bs', Q o := fun o ho => hb o (by simp [ho])
      simp only [matchLevelF]
      have haR : ∀ o ∈ (if a₀.quantity - min a₀.quantity b₀.quantity = 0 then as'
          else { a₀ with quantity := a₀.quantity - min a₀.quantity b₀.quantity } :: as'), P o := by
        split
        · exact hPs
        · intro o ho
          rcases List.mem_cons.1 ho with rfl | ho
          · exact hP a₀ _ hP0
          · exact hPs o ho
      have hbR : ∀ o ∈ (if b₀.quantity - min a₀.quantity b₀.quantity = 0 then bs'
          else { b₀ with quantity := b₀.quantity - min a₀.quantity b₀.quantity } :: bs'), Q o := by
        split
        · exact hQs
        · intro o ho
          rcases List.mem_cons.1 ho with rfl | ho
          · exact hQ b₀ _ hQ0
          · exact hQs o ho
      obtain ⟨ihA, ihB, ihT⟩ := ih _ _ haR hbR
      refine ⟨ihA, ihB, ?_⟩
      intro tc htc
      rcases List.mem_cons.1 htc with rfl | htc
      · split
        · exact Or.inl ⟨hP a₀ _ hP0, hQ b₀ _ hQ0, rfl, le_of_lt (by assumption)⟩
        · exact Or.inr ⟨hQ b₀ _ hQ0, hP a₀ _ hP0, rfl, le_of_not_lt (by assumption)⟩
      · exact ihT tc htc

/-- Every `DoTrade` call made by the outer `Match()` loop, on a book whose
resting orders carry their level's price and side, matches the maker's
resting level price, pairs opposite sides, and never takes an earlier
order as taker against a later maker. -/
theorem matchBookF_trades (fuel : Nat) (bids asks : List PriceLevel)
    (hb : LevelsWF .buy bids) (ha : LevelsWF .sell asks) :
    ∀ tc ∈ (matchBookF fuel bids asks).trades,
      tc.maker.exchTimestamp ≤ tc.taker.exchTimestamp ∧
      tc.price = tc.maker.limitPrice ∧
      (tc.taker.side = .sell → tc.maker.side = .buy) ∧
      (tc.taker.side = .buy → tc.maker.side = .sell) := by
  induction fuel generalizing bids asks with
  | zero => simp [matchBookF]
  | succ n ih =>
    match bids, asks with
    | [], asks => simp [matchBookF]
    | bb :: bt, [] => simp [matchBookF]
    | bb :: bt, ba :: at' =>
      have hbb : ∀ o ∈ bb.orders, o.limitPrice = bb.price ∧ o.side = .buy :=
        hb bb (by simp)
      have hba : ∀ o ∈ ba.orders, o.limitPrice = ba.price ∧ o.side = .sell :=
        ha ba (by simp)
      obtain ⟨kA, kB, kT⟩ := matchLevelF_pres
        (fun o => o.limitPrice = ba.price ∧ o.side = .sell)
        (fun o => o.limitPrice = bb.price ∧ o.side = .buy)
        (fun _ _ h => h) (fun _ _ h => h)
        (ba.orders.length + bb.orders.length) ba.orders bb.orders
        ba.price bb.price hba hbb
      simp only [matchBookF, matchLevel]
      split
      · simp
      · intro tc htc
        rcases List.mem_append.1 htc with h1 | h2
        · rcases kT tc h1 with ⟨p1, p2, p3, p4⟩ | ⟨p1, p2, p3, p4⟩
          · refine ⟨p4, by rw [p3, p2.1], fun _ => p2.2, fun hbuy => ?_⟩
            rw [p1.2] at hbuy
            cases hbuy
          · refine ⟨p4, by rw [p3, p2.1], fun hsell => ?_, fun _ => p2.2⟩
            rw [p1.2] at hsell
            cases hsell
        · have hb' : LevelsWF Side.buy (if (matchLevelF
              (ba.orders.length + bb.orders.length) ba.orders bb.orders
              ba.price bb.price).bidOrders = [] then bt
              else { bb with orders := (matchLevelF
                (ba.orders.length + bb.orders.length) ba.orders bb.orders
                ba.price bb.price).bidOrders } :: bt) := by
            split
            · exact fun lvl hl => hb lvl (List.mem_cons_of_mem _ hl)
            · intro lvl hl
              rcases List.mem_cons.1 hl with rfl | hl
              · exact fun o ho => kB o ho
              · exact hb lvl (List.mem_cons_of_mem _ hl)
          have ha' : LevelsWF Side.sell (if (matchLevelF
              (ba.orders.length + bb.orders.length) ba.orders bb.orders
              ba.price bb.price).askOrders = [] then at'
              else { ba with orders := (matchLevelF
                (ba.orders.length + bb.orders.length) ba.orders bb.orders
                ba.price bb.price).askOrders } :: at') := by
            split
            · exact fun lvl hl => ha lvl (List.mem_cons_of_mem _ hl)
            · intro lvl hl
              rcases List.mem_cons.1 hl with rfl | hl
              · exact fun o ho => kA o ho
              · exact ha lvl (List.mem_cons_of_mem _ hl)
          exact ih _ _ hb' ha' tc h2

/-- **C2.**  In every limit/limit match step of `Match()`, on a book whose
resting orders carry their level's price and side: the maker's exchange
timestamp is never later than the taker's (equivalently, whichever order
has the strictly later timestamp is the one passed to `DoTrade` as taker),
the trade price is the maker's resting level price, and when the ask-side
order is the taker the maker is the bid (so the price is the best-bid
level's), and symmetrically for a bid-side taker. -/
theorem match_trade_taker_maker (bids asks : List PriceLevel)
    (hb : LevelsWF .buy bids) (ha : LevelsWF .sell asks)
    (tc : TradeCall) (htc : tc ∈ (matchBook bids asks).trades) :
    tc.maker.exchTimestamp ≤ tc.taker.exchTimestamp ∧
    tc.price = tc.maker.limitPrice ∧
    (tc.taker.side = .sell → tc.maker.side = .buy) ∧
    (tc.taker.side = .buy → tc.maker.side = .sell) :=
  matchBookF_trades (bids.length + asks.length) bids asks hb ha tc htc

/-- Witness for C2: on the crossed demo book, `Match()` emits exactly the
demo trade, and the theorem's conclusions hold of it. -/
theorem match_trade_taker_maker_witness :
    demoCrossTrade.maker.exchTimestamp ≤ demoCrossTrade.taker.exchTimestamp ∧
    demoCrossTrade.price = demoCrossTrade.maker.limitPrice ∧
    (demoCrossTrade.taker.side = .sell → demoCrossTrade.maker.side = .buy) ∧
    (demoCrossTrade.taker.side = .buy → demoCrossTrade.maker.side = .sell) :=
  match_trade_taker_maker demoCrossedBids demoCrossedAsks
    (by unfold LevelsWF; decide) (by unfold LevelsWF; decide)
    demoCrossTrade (by decide)

/-- **C8** (code bug).  `Report.Serialize` evaluates `r.Ticker[:4]` and
`r.UUID[:16]`; slicing a Go string beyond its length panics, so a report
with a 2-byte ticker (or a 3-byte uuid) makes `Serialize` panic instead of
zero-padding the field as claimed — despite the code's own comment that
`copy()` avoids the panic. -/
theorem serialize_panics_on_short_strings :
    Net.serializeReport Net.demoShortTickerReport = none ∧
    Net.serializeReport Net.demoShortUuidReport = none := by
  decide

/-! ### Book invariant machinery for C9 -/

theorem bidLess_trans (a b c : Int) (h1 : bidLess a b = true)
    (h2 : bidLess b c = true) : bidLess a c = true := by
  simp only [bidLess, decide_eq_true_eq] at *
  omega

theorem bidLess_antisymm (a b : Int) (h1 : bidLess a b = false)
    (h2 : bidLess b a = false) : a = b := by
  simp only [bidLess, decide_eq_false_iff_not, not_lt] at *
  omega

theorem askLess_trans (a b c : Int) (h1 : askLess a b = true)
    (h2 : askLess b c = true) : askLess a c = true := by
  simp only [askLess, decide_eq_true_eq] at *
  omega

theorem askLess_antisymm (a b : Int) (h1 : askLess a b = false)
    (h2 : askLess b a = false) : a = b := by
  simp only [askLess, decide_eq_false_iff_not, not_lt] at *
  omega

/-- A price of `setLevel less x l` is `x`'s price or one of `l`'s. -/
theorem mem_pricesOf_setLevel (less : Int → Int → Bool) (x : PriceLevel)
    (l : List PriceLevel) (z : Int) (hz : z ∈ PricesOf (setLevel less x l)) :
    z = x.price ∨ z ∈ PricesOf l := by
  induction l with
  | nil =>
    simp only [setLevel, PricesOf, List.map_cons, List.map_nil] at hz
    simp at hz
    exact Or.inl hz
  | cons y ys ih =>
    simp only [setLevel] at hz
    split at hz
    · simpa [PricesOf] using hz
    · split at hz
      · simp only [PricesOf, List.map_cons, List.mem_cons] at hz ⊢
        rcases hz with rfl | hz
        · exact Or.inr (Or.inl rfl)
        · rcases ih hz with h | h
          · exact Or.inl h
          · exact Or.inr (Or.inr h)
      · simp only [PricesOf, List.map_cons, List.mem_cons] at hz ⊢
        rcases hz with rfl | hz
        · exact Or.inl rfl
        · exact Or.inr (Or.inr hz)

/-- `btree.Set` keeps a level tree sorted, for any strict total-order
comparator. -/
theorem setLevel_sorted (less : Int → Int → Bool)
    (htr : ∀ a b c : Int, less a b = true → less b c = true → less a c = true)
    (hcmp : ∀ a b : Int, less a b = false → less b a = false → a = b)
    (x : PriceLevel) (l : List PriceLevel) (hs : SortedLevels less l) :
    SortedLevels less (setLevel less x l) := by
  induction l with
  | nil => simp [SortedLevels, PricesOf, setLevel]
  | cons y ys ih =>
    simp only [SortedLevels, PricesOf, List.map_cons, List.pairwise_cons] at hs
    obtain ⟨hy, hys⟩ := hs
    simp only [SortedLevels, PricesOf, setLevel]
    split
    · rename_i hxy
      simp only [List.map_cons, List.pairwise_cons]
      refine ⟨?_, fun z hz => ?_, hys⟩
      · intro z hz
        rcases List.mem_cons.1 hz with rfl | hz
        · exact hxy
        · exact htr _ _ _ hxy (hy z hz)
      · exact hy z hz
    · split
      · rename_i hxy hyx
        simp only [List.map_cons, List.pairwise_cons]
        refine ⟨fun z hz => ?_, ih hys⟩
        rcases mem_pricesOf_setLevel less x ys z hz with rfl | h
        · exact hyx
        · exact hy z h
      · rename_i hxy hyx
        have hxey : x.price = y.price := hcmp _ _ (by simpa using hxy) (by simpa using hyx)
        simp only [List.map_cons, List.pairwise_cons]
        exact ⟨fun z hz => hxey ▸ hy z hz, hys⟩

/-- The price list of each side after `Match()` is a suffix of the side's
price list before: the loop only consumes whole levels from the front and
rewrites the order queue of the level it stops in. -/
theorem matchBookF_prices (fuel : Nat) (bids asks : List PriceLevel) :
    PricesOf (matchBookF fuel bids asks).bids <:+ PricesOf bids ∧
    PricesOf (matchBookF fuel bids asks).asks <:+ PricesOf asks := by
  induction fuel generalizing bids asks with
  | zero => simp [matchBookF, List.suffix_refl]
  | succ n ih =>
    match bids, asks with
    | [], asks => simp [matchBookF, List.suffix_refl]
    | bb :: bt, [] => simp [matchBookF, List.suffix_refl]
    | bb :: bt, ba :: at' =>
      simp only [matchBookF]
      split
      · exact ⟨List.suffix_refl _, List.suffix_refl _⟩
      · obtain ⟨ihb, iha⟩ := ih
          (if (matchLevel ba.orders bb.orders ba.price bb.price).bidOrders = []
            then bt
            else { bb with orders := (matchLevel ba.orders bb.orders ba.price bb.price).bidOrders } :: bt)
          (if (matchLevel ba.orders bb.orders ba.price bb.price).askOrders = []
            then at'
            else { ba with orders := (matchLevel ba.orders bb.orders ba.price bb.price).askOrders } :: at')
        constructor
        · refine ihb.trans ?_
          split
          · exact ⟨[bb.price], rfl⟩
          · exact List.suffix_refl _
        · refine iha.trans ?_
          split
          · exact ⟨[ba.price], rfl⟩
          · exact List.suffix_refl _

/-- With an iteration budget of at least the number of orders on the two
levels (each iteration removes at least one order), the inner `Match()`
loop runs until one level's order queue is exhausted. -/
theorem matchLevelF_one_empty (fuel : Nat) (a b : List Order) (ap bp : Int)
    (hf : a.length + b.length ≤ fuel) :
    (matchLevelF fuel a b ap bp).askOrders = [] ∨
    (matchLevelF fuel a b ap bp).bidOrders = [] := by
  induction fuel generalizing a b with
  | zero =>
    have : a = [] := by
      cases a with
      | nil => rfl
      | cons x xs => simp at hf
    subst this
    simp [matchLevelF]
  | succ n ih =>
    match a, b with
    | [], b => simp [matchLevelF]
    | a₀ :: as', [] => simp [matchLevelF]
    | a₀ :: as', b₀ :: bs' =>
      simp only [matchLevelF]
      apply ih
      have h1 := Nat.min_le_left a₀.quantity b₀.quantity
      have h2 := Nat.min_le_right a₀.quantity b₀.quantity
      simp only [List.length_cons] at hf
      split <;> split <;> (try simp only [List.length_cons]) <;> omega

/-- When the outer `Match()` loop is run with an iteration budget of at
least the number of levels (each iteration deletes at least one level),
it exits only in a state where a side is empty or the best levels no
longer cross: the resulting best bid is strictly below the best ask. -/
theorem matchBookF_uncrossed (fuel : Nat) (bids asks : List PriceLevel)
    (hf : bids.length + asks.length ≤ fuel) (bb ba : PriceLevel)
    (h1 : (matchBookF fuel bids asks).bids.head? = some bb)
    (h2 : (matchBookF fuel bids asks).asks.head? = some ba) :
    bb.price < ba.price := by
  induction fuel generalizing bids asks with
  | zero =>
    have : bids = [] := by
      cases bids with
      | nil => rfl
      | cons x xs => simp at hf
    subst this
    simp [matchBookF] at h1
  | succ n ih =>
    match bids, asks with
    | [], asks => simp [matchBookF] at h1
    | x :: xt, [] => simp [matchBookF] at h2
    | x :: xt, y :: yt =>
      rw [matchBookF] at h1 h2
      split at h1 <;> rename_i hguard
      · simp only [List.head?_cons, Option.some.injEq] at h1
        split at h2
        · simp only [List.head?_cons, Option.some.injEq] at h2
          subst h1
          subst h2
          exact hguard
        · exact absurd h1 (by simp_all)
      · rw [if_neg hguard] at h2
        rcases matchLevelF_one_empty (y.orders.length + x.orders.length)
          y.orders x.orders y.price x.price le_rfl with hae | hbe
        · apply ih _ _ _ h1 h2
          simp only [matchLevel, hae, if_pos]
          simp only [List.length_cons] at hf
          split <;> (try simp only [List.length_cons]) <;> omega
        · apply ih _ _ _ h1 h2
          simp only [matchLevel, hbe, if_pos]
          simp only [List.length_cons] at hf
          split <;> (try simp only [List.length_cons]) <;> omega

/-- The price list after the market sweep is a suffix of the price list
before: the sweep consumes whole levels from the front and may rewrite the
order queue of the level it stops in. -/
theorem sweep_prices (ord : Order) (levels : List PriceLevel) :
    PricesOf (sweep ord levels).levels <:+ PricesOf levels := by
  induction levels generalizing ord with
  | nil =>
    simp only [sweep]
    split <;> exact List.suffix_refl _
  | cons l ls ih =>
    simp only [sweep]
    split
    · exact List.suffix_refl _
    · split
      · exact (ih _).trans ⟨[l.price], rfl⟩
      · exact List.suffix_refl _

/-- In a pairwise-ordered list, the head of a suffix is the head of the
whole list or related to it. -/
theorem pairwise_suffix_head {α : Type} {R : α → α → Prop} {l' l : List α}
    (h : l' <:+ l) (hp : l.Pairwise R) {a b : α}
    (ha : l.head? = some a) (hb : l'.head? = some b) : a = b ∨ R a b := by
  obtain ⟨pre, rfl⟩ := h
  cases pre with
  | nil =>
    simp only [List.nil_append] at ha
    rw [ha] at hb
    exact Or.inl (Option.some_injective _ hb)
  | cons p ps =>
    simp only [List.cons_append, List.head?_cons, Option.some.injEq] at ha
    subst ha
    have hbmem : b ∈ l' := by
      cases l' with
      | nil => simp at hb
      | cons x xs =>
        simp only [List.head?_cons, Option.some.injEq] at hb
        subst hb
        exact List.mem_cons_self _ _
    rw [List.cons_append, List.pairwise_cons] at hp
    exact Or.inr (hp.1 b (List.mem_append_right ps hbmem))

/-- The head price of a level list. -/
theorem head_price (ls : List PriceLevel) (l : PriceLevel)
    (h : ls.head? = some l) : (PricesOf ls).head? = some l.price := by
  cases ls with
  | nil => simp at h
  | cons x xs =>
    simp only [List.head?_cons, Option.some.injEq] at h
    subst h
    simp [PricesOf]

/-- Replacing the ask side by one whose price list is a suffix (and the
counters by anything) preserves the book invariant. -/
theorem bookInv_asks_suffix (book : OrderBook) (levels : List PriceLevel)
    (h : BookInv book) (hsf : PricesOf levels <:+ PricesOf book.asks)
    (nb ns bq sq : Nat) :
    BookInv { bids := book.bids, asks := levels, nBuyOrders := nb,
              nSellOrders := ns, buyQuantity := bq, sellQuantity := sq } := by
  obtain ⟨⟨hsb, hsa⟩, hun⟩ := h
  refine ⟨⟨hsb, hsa.sublist hsf.sublist⟩, ?_⟩
  intro bb ba hbb hba
  cases hold : book.asks.head? with
  | none =>
    have hnil : book.asks = [] := by rwa [List.head?_eq_none_iff] at hold
    rw [hnil] at hsf
    have h0 : PricesOf levels = [] := List.suffix_nil.mp (by simpa [PricesOf] using hsf)
    have h1 : levels = [] := List.map_eq_nil_iff.mp h0
    simp [h1] at hba
  | some a₀ =>
    have h1 : bb.price < a₀.price := hun bb a₀ hbb hold
    have h2 := pairwise_suffix_head hsf hsa (head_price _ _ hold) (head_price _ _ hba)
    rcases h2 with h2 | h2
    · omega
    · simp only [askLess, decide_eq_true_eq] at h2
      omega

/-- Replacing the bid side by one whose price list is a suffix (and the
counters by anything) preserves the book invariant. -/
theorem bookInv_bids_suffix (book : OrderBook) (levels : List PriceLevel)
    (h : BookInv book) (hsf : PricesOf levels <:+ PricesOf book.bids)
    (nb ns bq sq : Nat) :
    BookInv { bids := levels, asks := book.asks, nBuyOrders := nb,
              nSellOrders := ns, buyQuantity := bq, sellQuantity := sq } := by
  obtain ⟨⟨hsb, hsa⟩, hun⟩ := h
  refine ⟨⟨hsb.sublist hsf.sublist, hsa⟩, ?_⟩
  intro bb ba hbb hba
  cases hold : book.bids.head? with
  | none =>
    have hnil : book.bids = [] := by rwa [List.head?_eq_none_iff] at hold
    rw [hnil] at hsf
    have h0 : PricesOf levels = [] := List.suffix_nil.mp (by simpa [PricesOf] using hsf)
    have h1 : levels = [] := List.map_eq_nil_iff.mp h0
    simp [h1] at hbb
  | some b₀ =>
    have h1 : b₀.price < ba.price := hun b₀ ba hold hba
    have h2 := pairwise_suffix_head hsf hsb (head_price _ _ hold) (head_price _ _ hbb)
    rcases h2 with h2 | h2
    · omega
    · simp only [bidLess, decide_eq_true_eq] at h2
      omega

/-- `handleMarket` preserves the book invariant: it either rejects the
order leaving the book untouched, or sweeps one side from the best level
inward, which only shrinks that side's price list from the front. -/
theorem handleMarket_inv (book : OrderBook) (order : Order) (h : BookInv book) :
    BookInv ((handleMarket book order).book) := by
  unfold handleMarket
  split
  · exact h
  · cases horder : order.side with
    | buy =>
      simp only [horder]
      cases hsw : (sweep order book.asks).err with
      | some e =>
        simp only [hsw]
        exact bookInv_asks_suffix book _ h (sweep_prices order book.asks) _ _ _ _
      | none =>
        simp only [hsw]
        exact bookInv_asks_suffix book _ h (sweep_prices order book.asks) _ _ _ _
    | sell =>
      simp only [horder]
      cases hsw : (sweep order book.bids).err with
      | some e =>
        simp only [hsw]
        exact bookInv_bids_suffix book _ h (sweep_prices order book.bids) _ _ _ _
      | none =>
        simp only [hsw]
        exact bookInv_bids_suffix book _ h (sweep_prices order book.bids) _ _ _ _

/-- `handleLimit` establishes the book invariant on any book whose sides
are sorted: the inserted level keeps the side sorted, and `Match()` runs
until the best levels no longer cross. -/
theorem handleLimit_inv (book : OrderBook) (order : Order) (h : BookSorted book) :
    BookInv ((handleLimit book order).book) := by
  unfold handleLimit
  cases horder : order.side with
  | buy =>
    simp only [horder]
    have hsorted : SortedLevels bidLess (setLevel bidLess
        { (getLevel bidLess order.limitPrice book.bids).getD
            { price := order.limitPrice, orders := [] } with
          orders := setOrder order ((getLevel bidLess order.limitPrice book.bids).getD
            { price := order.limitPrice, orders := [] }).orders } book.bids) := by
      apply setLevel_sorted bidLess bidLess_trans bidLess_antisymm _ _ h.1
    constructor
    · constructor
      · exact hsorted.sublist (matchBookF_prices _ _ _).1.sublist
      · exact h.2.sublist (matchBookF_prices _ _ _).2.sublist
    · intro bb ba hbb hba
      exact matchBookF_uncrossed _ _ _ le_rfl bb ba hbb hba
  | sell =>
    simp only [horder]
    have hsorted : SortedLevels askLess (setLevel askLess
        { (getLevel askLess order.limitPrice book.asks).getD
            { price := order.limitPrice, orders := [] } with
          orders := setOrder order ((getLevel askLess order.limitPrice book.asks).getD
            { price := order.limitPrice, orders := [] }).orders } book.asks) := by
      apply setLevel_sorted askLess askLess_trans askLess_antisymm _ _ h.2
    constructor
    · constructor
      · exact h.1.sublist (matchBookF_prices _ _ _).1.sublist
      · exact hsorted.sublist (matchBookF_prices _ _ _).2.sublist
    · intro bb ba hbb hba
      exact matchBookF_uncrossed _ _ _ le_rfl bb ba hbb hba

/-- Every public operation preserves the book invariant. -/
theorem applyOp_inv (now : Nat) (book : OrderBook) (op : BookOp)
    (h : BookInv book) : BookInv (applyOp now book op) := by
  cases op with
  | cancel u => simpa [applyOp, cancelOrder] using h
  | place o =>
    simp only [applyOp, placeOrder]
    cases ho : o.orderType with
    | limit => exact handleLimit_inv book _ h.1
    | market => exact handleMarket_inv book _ h

/-- Any operation sequence started on an invariant-satisfying book keeps
the invariant. -/
theorem runOpsFrom_inv (ops : List BookOp) : ∀ (now : Nat) (book : OrderBook),
    BookInv book → BookInv (runOpsFrom now book ops) := by
  induction ops with
  | nil =>
    intro now book h
    simpa [runOpsFrom] using h
  | cons op ops ih =>
    intro now book h
    simp only [runOpsFrom]
    exact ih _ _ (applyOp_inv now book op h)

/-- **C9.**  For every sequence of public order-book operations starting
from an empty book, whenever both sides are non-empty immediately after an
operation returns, the best (highest) bid level price is strictly below
the best (lowest) ask level price. -/
theorem best_bid_lt_best_ask (ops : List BookOp) (bb ba : PriceLevel)
    (hbb : (runOps ops).bids.head? = some bb)
    (hba : (runOps ops).asks.head? = some ba) :
    bb.price < ba.price := by
  have hinv : BookInv (runOps ops) := by
    apply runOpsFrom_inv
    refine ⟨⟨?_, ?_⟩, ?_⟩
    · simp [SortedLevels, PricesOf, NewOrderBook]
    · simp [SortedLevels, PricesOf, NewOrderBook]
    · intro x y hx hy
      simp [NewOrderBook] at hx
  exact hinv.2 bb ba hbb hba

/-- Witness for C9: after a resting buy at 99 and a resting sell at 100,
both sides are non-empty and 99 < 100. -/
theorem best_bid_lt_best_ask_witness : demoBidLevel.price < demoAskLevel.price :=
  best_bid_lt_best_ask demoOps demoBidLevel demoAskLevel (by decide) (by decide)

/-- **C5, amended.**  `parse` is total and returns a declared error for
every malformed buffer **except** two panic regions of `NewOrder` frames:
a body shorter than the 26 fixed bytes is an out-of-range read (the fields
are read before any length check), and a body of at least 26 bytes whose
username-length byte is at least 230 panics at the username slice, because
`26 + username_len` is Go `uint8` arithmetic wrapping mod 256, putting the
slice's high index below 26.  Precisely: the parse crashes exactly when
the buffer has a 2-byte header with discriminant 1 (`NewOrder`) and either
total length below 28 or username-length byte ≥ 230; a buffer shorter
than 2 bytes yields the header error; a discriminant other than
`NewOrder`/`CancelOrder` yields `InvalidMessageType`; and a `NewOrder`
frame with its 26 fixed body bytes, a username-length byte below 230 and
fewer than `username_len` further bytes yields `TooShortForBody`. -/
theorem parse_total_amended (buf : List Nat) :
    (Net.parseMessage buf = .panicked ↔
      2 ≤ buf.length ∧ Net.be16 (buf.getD 0 0) (buf.getD 1 0) = 1 ∧
        (buf.length < 28 ∨ 230 ≤ buf.getD 27 0 % 256)) ∧
    (buf.length < 2 → Net.parseMessage buf = .err .tooShortForHeader) ∧
    (2 ≤ buf.length → Net.be16 (buf.getD 0 0) (buf.getD 1 0) ≠ 1 →
      Net.be16 (buf.getD 0 0) (buf.getD 1 0) ≠ 2 →
      Net.parseMessage buf = .err .invalidMessageType) ∧
    (Net.be16 (buf.getD 0 0) (buf.getD 1 0) = 1 → 28 ≤ buf.length →
      buf.getD 27 0 % 256 < 230 →
      buf.length < 28 + buf.getD 27 0 % 256 →
      Net.parseMessage buf = .err .messageTooShort) := by
  have hdl : (buf.drop 2).length = buf.length - 2 := by simp
  have hgd : (buf.drop 2).getD 25 0 = buf.getD 27 0 := by
    simp [List.getD_eq_getElem?_getD, List.getElem?_drop]
  by_cases h2 : buf.length < 2
  · have he : Net.parseMessage buf = .err .tooShortForHeader := by
      unfold Net.parseMessage
      rw [if_pos h2]
    refine ⟨?_, fun _ => he, fun hl _ _ => absurd hl (by omega),
      fun _ h28 _ _ => absurd h28 (by omega)⟩
    rw [he]
    constructor
    · intro h
      cases h
    · rintro ⟨hl, -, -⟩
      omega
  · by_cases ht1 : Net.be16 (buf.getD 0 0) (buf.getD 1 0) = 1
    · have hred : Net.parseMessage buf = Net.parseNewOrder (buf.drop 2) := by
        simp only [Net.parseMessage, if_neg h2, if_pos ht1]
      by_cases h28 : buf.length < 28
      · have hcond : (buf.drop 2).length < Net.NewOrderMessageHeaderLen := by
          rw [hdl]
          unfold Net.NewOrderMessageHeaderLen
          omega
        have he : Net.parseMessage buf = .panicked := by
          rw [hred]
          unfold Net.parseNewOrder
          rw [if_pos hcond]
        refine ⟨?_, fun hl => absurd hl h2, fun _ hne _ => absurd ht1 hne,
          fun _ hge _ _ => absurd hge (by omega)⟩
        rw [he]
        exact ⟨fun _ => ⟨by omega, ht1, Or.inl h28⟩, fun _ => rfl⟩
      · have hcond : ¬ (buf.drop 2).length < Net.NewOrderMessageHeaderLen := by
          rw [hdl]
          unfold Net.NewOrderMessageHeaderLen
          omega
        by_cases hw : 230 ≤ buf.getD 27 0 % 256
        · have hchk : ¬ (buf.drop 2).length <
              (Net.NewOrderMessageHeaderLen + (buf.drop 2).getD 25 0 % 256) % 256 := by
            rw [hdl, hgd]
            unfold Net.NewOrderMessageHeaderLen
            omega
          have hlt26 : (Net.NewOrderMessageHeaderLen +
              (buf.drop 2).getD 25 0 % 256) % 256 < 26 := by
            rw [hgd]
            unfold Net.NewOrderMessageHeaderLen
            omega
          have he : Net.parseMessage buf = .panicked := by
            rw [hred]
            unfold Net.parseNewOrder
            rw [if_neg hcond]
            simp only [if_neg hchk, if_pos hlt26]
          refine ⟨?_, fun hl => absurd hl h2, fun _ hne _ => absurd ht1 hne,
            fun _ _ hsm _ => absurd hw (by omega)⟩
          rw [he]
          exact ⟨fun _ => ⟨by omega, ht1, Or.inr hw⟩, fun _ => rfl⟩
        · by_cases hul : buf.length < 28 + buf.getD 27 0 % 256
          · have hc2 : (buf.drop 2).length <
                (Net.NewOrderMessageHeaderLen + (buf.drop 2).getD 25 0 % 256) % 256 := by
              rw [hdl, hgd]
              unfold Net.NewOrderMessageHeaderLen
              omega
            have he : Net.parseMessage buf = .err .messageTooShort := by
              rw [hred]
              unfold Net.parseNewOrder
              rw [if_neg hcond]
              simp only [if_pos hc2]
            refine ⟨?_, fun hl => absurd hl h2, fun _ hne _ => absurd ht1 hne,
              fun _ _ _ _ => he⟩
            rw [he]
            constructor
            · intro h
              cases h
            · rintro ⟨-, -, hx | hx⟩
              · omega
              · omega
          · have hc2 : ¬ (buf.drop 2).length <
                (Net.NewOrderMessageHeaderLen + (buf.drop 2).getD 25 0 % 256) % 256 := by
              rw [hdl, hgd]
              unfold Net.NewOrderMessageHeaderLen
              omega
            have hc3 : ¬ (Net.NewOrderMessageHeaderLen +
                (buf.drop 2).getD 25 0 % 256) % 256 < 26 := by
              rw [hgd]
              unfold Net.NewOrderMessageHeaderLen
              omega
            have he : ∃ m, Net.parseMessage buf = .ok m := by
              rw [hred]
              unfold Net.parseNewOrder
              rw [if_neg hcond]
              simp only [if_neg hc2, if_neg hc3]
              exact ⟨_, rfl⟩
            obtain ⟨m, he⟩ := he
            refine ⟨?_, fun hl => absurd hl h2, fun _ hne _ => absurd ht1 hne,
              fun _ _ _ hlt => absurd hlt hul⟩
            rw [he]
            constructor
            · intro h
              cases h
            · rintro ⟨-, -, hx | hx⟩
              · omega
              · omega
    · by_cases ht2 : Net.be16 (buf.getD 0 0) (buf.getD 1 0) = 2
      · have hred : Net.parseMessage buf = Net.parseCancelOrder (buf.drop 2) := by
          simp only [Net.parseMessage, if_neg h2, if_neg ht1, if_pos ht2]
        have hnp : Net.parseMessage buf ≠ .panicked := by
          rw [hred]
          unfold Net.parseCancelOrder
          split
          · intro h
            cases h
          · intro h
            cases h
        refine ⟨?_, fun hl => absurd hl h2, fun _ _ hne2 => absurd ht2 hne2,
          fun h1 => absurd h1 ht1⟩
        constructor
        · intro h
          exact absurd h hnp
        · rintro ⟨-, h1, -⟩
          exact absurd h1 ht1
      · have he : Net.parseMessage buf = .err .invalidMessageType := by
          simp only [Net.parseMessage, if_neg h2, if_neg ht1, if_neg ht2]
        refine ⟨?_, fun hl => absurd hl h2, fun _ _ _ => he, fun h1 => absurd h1 ht1⟩
        rw [he]
        constructor
        · intro h
          cases h
        · rintro ⟨-, h1, -⟩
          exact absurd h1 ht1

end Engine

end Fenrir

